import Mathlib

/-!
Shallow embedding of `cmd/border-shimmer/border-shimmer.go` from the
`janky-shimmer` repository, together with proofs about its color model
(parsing, interpolation, hex encoding) and its cyclic animation loop.

Floating-point arithmetic in the source (`float64`) is modelled by exact
rational arithmetic (`ℚ`); Go's truncating conversions `int(...)`,
`int64(...)` and `uint8(...)` are modelled by truncation toward zero on `ℚ`.
Machine bytes are modelled as natural numbers (values `< 256` where the
source guarantees it).
-/

namespace BorderShimmer

/-- Truncation toward zero of a rational, as Go's conversion from `float64`
to an integer type does (`int(x)`, `int64(x)`, and `uint8(x)` for in-range
values). -/
def ratTrunc (q : ℚ) : ℤ :=
  if 0 ≤ q then ⌊q⌋ else ⌈q⌉

/-- Go's `uint8(x)` conversion applied to an in-range (`0 ≤ x < 256`)
`float64` value: truncation toward zero. All call sites in the source
keep the argument in range, so out-of-range behavior is not modelled. -/
def toUint8 (q : ℚ) : ℕ :=
  (ratTrunc q).toNat

/-- The color model: Go's `color.RGBA` with four 8-bit channels.
Channels are modelled as naturals; every color the program constructs has
all channels `< 256`. -/
structure RGBA where
  r : ℕ
  g : ℕ
  b : ℕ
  a : ℕ
deriving DecidableEq, Repr

/-- Characters accepted as hexadecimal digits by Go's `fmt` scanner for
the `%X` verb: `0-9` (codes 48-57), `a-f` (codes 97-102), `A-F`
(codes 65-70). -/
def isHexDig (c : Char) : Bool :=
  (48 ≤ c.toNat && c.toNat ≤ 57) || (97 ≤ c.toNat && c.toNat ≤ 102) ||
    (65 ≤ c.toNat && c.toNat ≤ 70)

/-- Numeric value of a hexadecimal digit character (0 for non-digits). -/
def hexDigitVal (c : Char) : ℕ :=
  if 48 ≤ c.toNat && c.toNat ≤ 57 then c.toNat - 48
  else if 97 ≤ c.toNat && c.toNat ≤ 102 then c.toNat - 87
  else if 65 ≤ c.toNat && c.toNat ≤ 70 then c.toNat - 55
  else 0

/-- Value of a list of hexadecimal digit characters, most significant
first, as `strconv.ParseUint(_, 16, 64)` computes it for the token the
scanner collected. -/
def hexListVal (l : List Char) : ℕ :=
  l.foldl (fun acc c => 16 * acc + hexDigitVal c) 0

/-- Model of `fmt.Sscanf(c, "%08X", &val)` on a whitespace-free string:
the scanner consumes the maximal leading run of hexadecimal digits, at
most 8 (the width), and fails only when that run is empty. Trailing
unconsumed characters are NOT an error for `Sscanf`. The scanner's
skipping of leading blanks is not modelled; theorems below are stated for
strings without whitespace. -/
def scanHex8 (s : List Char) : Option ℕ :=
  let digits := (s.takeWhile isHexDig).take 8
  if digits.isEmpty then none else some (hexListVal digits)

/-- The two error shapes produced by `parseColors`:
`invalid color format: %s` and `invalid color value: %s`. -/
inductive ColorErr where
  | invalidFormat (s : List Char)
  | invalidValue (s : List Char)
deriving DecidableEq, Repr

/-- Go's `strings.TrimPrefix(c, "#")`: remove one leading `#` if present. -/
def stripHash (s : List Char) : List Char :=
  match s with
  | c :: rest => if c = '#' then rest else c :: rest
  | [] => []

/-- Extraction of the ARGB components from the scanned 32-bit value:
`r = uint8(val >> 24)`, `g = uint8((val >> 16) & 0xFF)`,
`b = uint8((val >> 8) & 0xFF)`, `a = uint8(val & 0xFF)`. -/
def rgbaOfVal (val : ℕ) : RGBA :=
  ⟨(val >>> 24) % 256, (val >>> 16) % 256, (val >>> 8) % 256, val % 256⟩

/-- The per-color body of `parseColors`: strip an optional `#`, require
length 8, scan with `%08X`, and extract the ARGB components. -/
def parseColor (s : List Char) : Except ColorErr RGBA :=
  let c := stripHash s
  if c.length ≠ 8 then .error (.invalidFormat c)
  else
    match scanHex8 c with
    | none => .error (.invalidValue c)
    | some val => .ok (rgbaOfVal val)

/-- `parseColors`: parse each string in order, stopping at the first
error. -/
def parseColors : List (List Char) → Except ColorErr (List RGBA)
  | [] => .ok []
  | c :: rest =>
    match parseColor c with
    | .error e => .error e
    | .ok col =>
      match parseColors rest with
      | .error e => .error e
      | .ok others => .ok (col :: others)

/-- `interpolateColor(c1, c2, t)`: per-channel
`uint8(float64(c1.ch)*(1-t) + float64(c2.ch)*t)`. -/
def interpolateColor (c1 c2 : RGBA) (t : ℚ) : RGBA :=
  ⟨toUint8 ((c1.r : ℚ) * (1 - t) + (c2.r : ℚ) * t),
   toUint8 ((c1.g : ℚ) * (1 - t) + (c2.g : ℚ) * t),
   toUint8 ((c1.b : ℚ) * (1 - t) + (c2.b : ℚ) * t),
   toUint8 ((c1.a : ℚ) * (1 - t) + (c2.a : ℚ) * t)⟩

/-- Uppercase hexadecimal digit character for a value `< 16`, as `%X`
prints it. -/
def hexUpperChar (n : ℕ) : Char :=
  if n < 10 then Char.ofNat (48 + n) else Char.ofNat (55 + n)

/-- `%02X` applied to a byte value (`< 256`): two zero-padded uppercase
hexadecimal digits. Arguments `≥ 256` do not occur in the source (all
channels are bytes). -/
def byteHex (n : ℕ) : List Char :=
  [hexUpperChar (n / 16), hexUpperChar (n % 16)]

/-- `colorToHex(c)`: `fmt.Sprintf("0x%02X%02X%02X%02X", c.A, c.R, c.G, c.B)`. -/
def colorToHex (c : RGBA) : List Char :=
  '0' :: 'x' :: (byteHex c.a ++ byteHex c.r ++ byteHex c.g ++ byteHex c.b)

/-- Derivation of the inactive track when no inactive colors are supplied:
`offset := len(colors) / 2; inactiveColors = append(colors[offset:], colors[:offset]...)`. -/
def deriveInactive (colors : List RGBA) : List RGBA :=
  colors.drop (colors.length / 2) ++ colors.take (colors.length / 2)

/-- The fatal startup errors of `main` that the embedded fragment covers. -/
inductive StartupError where
  | activeColorErr (e : ColorErr)
  | inactiveColorErr (e : ColorErr)
  | trackLengthMismatch
deriving DecidableEq, Repr

/-- The startup phase of `main` after configuration resolution: parse the
active colors, then either parse the inactive colors (when some were
supplied) or derive them by rotation, then reject a track-length
mismatch. Any `.error` result models `os.Exit(1)` before the animation
loop starts. -/
def setupTracks (activeStrs inactiveStrs : List (List Char)) :
    Except StartupError (List RGBA × List RGBA) :=
  match parseColors activeStrs with
  | .error e => .error (.activeColorErr e)
  | .ok colors =>
    match (if inactiveStrs.length > 0 then parseColors inactiveStrs
           else .ok (deriveInactive colors)) with
    | .error e => .error (.inactiveColorErr e)
    | .ok inactiveColors =>
      if inactiveColors.length ≠ colors.length then .error .trackLengthMismatch
      else .ok (colors, inactiveColors)

/-- `stepsPerTransition := int(cfg.Active.Secs * cfg.Active.FPS)`. -/
def stepsPerTransition (secs fps : ℚ) : ℤ :=
  ratTrunc (secs * fps)

/-- `delay := time.Duration(1.0 / cfg.Active.FPS * float64(time.Second))`:
a `time.Duration` is an integer count of nanoseconds, and
`float64(time.Second) = 10^9`. -/
def frameDelayNanos (fps : ℚ) : ℤ :=
  ratTrunc (1 / fps * 1000000000)

/-- The loop counters of the animation loop: `i` is the index of the
middle `for` loop over the track, `step` the index of the inner `for`
loop over `0 ..= stepsPerTransition`. -/
structure AnimState where
  i : ℕ
  step : ℕ
deriving DecidableEq, Repr

/-- Advance of the loop counters after one frame: the inner loop
increments `step` while `step < S`; when the inner loop finishes, the
middle loop increments `i`, and when `i` passes the end of the track the
outer infinite loop restarts it at 0. -/
def nextState (len S : ℕ) (s : AnimState) : AnimState :=
  if s.step < S then ⟨s.i, s.step + 1⟩
  else if s.i + 1 < len then ⟨s.i + 1, 0⟩
  else ⟨0, 0⟩

/-- Loop counters at the start of the `n`-th frame (counting from 0):
`n`-fold iteration of `nextState` from `⟨0, 0⟩`. -/
def animState (len S : ℕ) : ℕ → AnimState
  | 0 => ⟨0, 0⟩
  | n + 1 => nextState len S (animState len S n)

/-- One emitted frame: the interpolated active and inactive colors. -/
structure Frame where
  active : RGBA
  inactive : RGBA
deriving DecidableEq, Repr

/-- Fallback color for out-of-range indexing; the loop never indexes out
of range (`i < len` throughout). -/
def dRGBA : RGBA := ⟨0, 0, 0, 0⟩

/-- The frame computed by one iteration of the loop body at counters `s`:
`t := float64(step) / float64(stepsPerTransition)`, then
`interpolateColor(colors[i], colors[(i+1)%len(colors)], t)` and the same
for the inactive track. (If `S = 0` the source divides by zero in
`float64`; rational division by zero yields 0 here, and all theorems
assume `1 ≤ S`.) -/
def frameAt (colors inactiveColors : List RGBA) (S : ℕ) (s : AnimState) : Frame :=
  let t : ℚ := (s.step : ℚ) / (S : ℚ)
  { active :=
      interpolateColor (colors.getD s.i dRGBA)
        (colors.getD ((s.i + 1) % colors.length) dRGBA) t,
    inactive :=
      interpolateColor (inactiveColors.getD s.i dRGBA)
        (inactiveColors.getD ((s.i + 1) % inactiveColors.length) dRGBA) t }

/-- The `n`-th frame the loop emits. -/
def emittedFrame (colors inactiveColors : List RGBA) (S : ℕ) (n : ℕ) : Frame :=
  frameAt colors inactiveColors S (animState colors.length S n)

/-- The log line printed when `cmd.Run()` fails; on success nothing is
printed. -/
def sinkLog (res : Option (List Char)) : List (List Char) :=
  match res with
  | some msg => [('E' :: 'r' :: 'r' :: []) ++ msg]
  | none => []

/-- `n` iterations of the loop body, with the outcome of the `borders`
invocation at each frame given by the oracle `sink` (`none` = success,
`some msg` = `cmd.Run()` returned an error). Returns the loop counters
after the `n`-th frame, the emitted frames, and the accumulated log.
The source inspects the sink error only to print it. -/
def runLoop (colors inactiveColors : List RGBA) (S : ℕ)
    (sink : ℕ → Option (List Char)) :
    ℕ → AnimState × List Frame × List (List Char)
  | 0 => (⟨0, 0⟩, [], [])
  | n + 1 =>
    let r := runLoop colors inactiveColors S sink n
    (nextState colors.length S r.1,
     r.2.1 ++ [frameAt colors inactiveColors S r.1],
     r.2.2 ++ sinkLog (sink n))

/-! ## Basic lemmas -/

theorem ratTrunc_of_nonneg {q : ℚ} (h : 0 ≤ q) : ratTrunc q = ⌊q⌋ :=
  if_pos h

theorem toUint8_natCast (n : ℕ) : toUint8 (n : ℚ) = n := by
  rw [toUint8, ratTrunc_of_nonneg (by exact_mod_cast Nat.zero_le n)]
  simp

/-! ## Claims about the color model -/

/-- C2: for every color `c` and every `t` in `[0,1]`,
`interpolateColor c c t = c` — interpolating a color with itself is the
identity on all four channels. -/
theorem interpolateColor_self_id (c : RGBA) (t : ℚ) (h0 : 0 ≤ t) (h1 : t ≤ 1) :
    interpolateColor c c t = c := by
  have key : ∀ x : ℕ, (x : ℚ) * (1 - t) + (x : ℚ) * t = (x : ℚ) := fun x => by ring
  cases c
  simp [interpolateColor, key, toUint8_natCast]

/-- Witness for C2 at `c = (255, 160, 32, 255)`, `t = 1/3`. -/
theorem interpolateColor_self_id_witness :
    interpolateColor ⟨255, 160, 32, 255⟩ ⟨255, 160, 32, 255⟩ (1 / 3) =
      ⟨255, 160, 32, 255⟩ :=
  interpolateColor_self_id ⟨255, 160, 32, 255⟩ (1 / 3) (by norm_num) (by norm_num)

/-- C5: `interpolateColor c1 c2 0 = c1` and `interpolateColor c1 c2 1 = c2`
exactly, on all four channels, and for every `t` each output channel is
the truncation toward zero of `c1.channel * (1 - t) + c2.channel * t`. -/
theorem interpolateColor_boundary (c1 c2 : RGBA) (t : ℚ) :
    interpolateColor c1 c2 0 = c1 ∧ interpolateColor c1 c2 1 = c2 ∧
    interpolateColor c1 c2 t =
      ⟨(ratTrunc ((c1.r : ℚ) * (1 - t) + (c2.r : ℚ) * t)).toNat,
       (ratTrunc ((c1.g : ℚ) * (1 - t) + (c2.g : ℚ) * t)).toNat,
       (ratTrunc ((c1.b : ℚ) * (1 - t) + (c2.b : ℚ) * t)).toNat,
       (ratTrunc ((c1.a : ℚ) * (1 - t) + (c2.a : ℚ) * t)).toNat⟩ := by
  refine ⟨?_, ?_, rfl⟩ <;> cases c1 <;> cases c2 <;>
    simp [interpolateColor, toUint8_natCast]

/-! ## Claims about startup: track derivation and the length check -/

/-- C6: when no inactive colors are supplied, the derived inactive track
is the active track rotated left by `⌊len / 2⌋` positions (second half
followed by first half). -/
theorem deriveInactive_eq_rotate (l : List RGBA) (h : l ≠ []) :
    deriveInactive l = l.rotate (l.length / 2) := by
  rw [deriveInactive, List.rotate_eq_drop_append_take (Nat.div_le_self _ _)]

/-- Witness for C6 on a 4-color track: the derived track is the rotation,
concretely `[c2, c3, c0, c1]`. -/
theorem deriveInactive_eq_rotate_witness :
    deriveInactive [⟨1, 0, 0, 0⟩, ⟨2, 0, 0, 0⟩, ⟨3, 0, 0, 0⟩, ⟨4, 0, 0, 0⟩] =
      List.rotate [⟨1, 0, 0, 0⟩, ⟨2, 0, 0, 0⟩, ⟨3, 0, 0, 0⟩, ⟨4, 0, 0, 0⟩]
        ((4 : ℕ) / 2) ∧
    deriveInactive [⟨1, 0, 0, 0⟩, ⟨2, 0, 0, 0⟩, ⟨3, 0, 0, 0⟩, ⟨4, 0, 0, 0⟩] =
      [⟨3, 0, 0, 0⟩, ⟨4, 0, 0, 0⟩, ⟨1, 0, 0, 0⟩, ⟨2, 0, 0, 0⟩] :=
  ⟨deriveInactive_eq_rotate _ (by decide), by decide⟩

/-- C10: a derived inactive track always has the same length as the
active track, so when no inactive colors are supplied the
track-length-mismatch check can never fire. -/
theorem deriveInactive_length_safe (colors : List RGBA) (h : colors ≠ []) :
    (deriveInactive colors).length = colors.length ∧
    (∀ activeStrs : List (List Char),
      parseColors activeStrs = .ok colors →
      setupTracks activeStrs [] ≠ .error .trackLengthMismatch) := by
  have hlen : (deriveInactive colors).length = colors.length := by
    simp [deriveInactive]
    omega
  refine ⟨hlen, ?_⟩
  intro activeStrs hparse
  simp [setupTracks, hparse, hlen]

/-- Witness for C10 on a concrete 2-color configuration. -/
theorem deriveInactive_length_safe_witness :
    (deriveInactive [⟨255, 0, 0, 255⟩, ⟨0, 0, 255, 255⟩]).length =
      ([⟨255, 0, 0, 255⟩, ⟨0, 0, 255, 255⟩] : List RGBA).length ∧
    setupTracks [['F', 'F', '0', '0', '0', '0', 'F', 'F'],
        ['0', '0', '0', '0', 'F', 'F', 'F', 'F']] [] ≠
      .error .trackLengthMismatch := by
  have h := deriveInactive_length_safe [⟨255, 0, 0, 255⟩, ⟨0, 0, 255, 255⟩]
    (by decide)
  exact ⟨h.1, h.2 _ rfl⟩

/-- C8: whenever the inactive track obtained after parsing or derivation
differs in length from the active track, startup fails with the fatal
track-length-mismatch error (so no frame of the loop is ever computed). -/
theorem mismatch_fatal (activeStrs inactiveStrs : List (List Char))
    (colors inact : List RGBA)
    (hparse : parseColors activeStrs = .ok colors)
    (hin : (inactiveStrs ≠ [] ∧ parseColors inactiveStrs = .ok inact) ∨
           (inactiveStrs = [] ∧ inact = deriveInactive colors))
    (hmis : inact.length ≠ colors.length) :
    setupTracks activeStrs inactiveStrs = .error .trackLengthMismatch := by
  rcases hin with ⟨hne, hin⟩ | ⟨hemp, hin⟩
  · have hpos : inactiveStrs.length > 0 := List.length_pos.mpr hne
    simp [setupTracks, hparse, hpos, hin, hmis]
  · subst hemp
    subst hin
    simp [setupTracks, hparse, hmis]

/-- Witness for C8: one active color, two supplied inactive colors. -/
theorem mismatch_fatal_witness :
    setupTracks [['F', 'F', '0', '0', '0', '0', 'F', 'F']]
      [['0', '0', '0', '0', 'F', 'F', 'F', 'F'],
       ['F', 'F', 'F', 'F', '0', '0', 'F', 'F']] =
      .error .trackLengthMismatch :=
  mismatch_fatal _ _ [⟨255, 0, 0, 255⟩] [⟨0, 0, 255, 255⟩, ⟨255, 255, 0, 255⟩]
    rfl (Or.inl ⟨by decide, rfl⟩) (by decide)

/-! ## Claims about the animation loop -/

theorem runLoop_fst (colors inactiveColors : List RGBA) (S : ℕ)
    (sink : ℕ → Option (List Char)) (n : ℕ) :
    (runLoop colors inactiveColors S sink n).1 = animState colors.length S n := by
  induction n with
  | zero => rfl
  | succ n ih => simp [runLoop, animState, ih]

/-- C9: the outcome of the `borders` invocation never influences the
loop: for every sink-failure oracle, the loop counters after `n` frames
equal the pure counter iteration, and the emitted frames are exactly
those of an all-success run — failures are only logged, never retried,
and never stop the loop. -/
theorem sink_failure_ignored (colors inactiveColors : List RGBA) (S : ℕ)
    (sink : ℕ → Option (List Char)) (n : ℕ) :
    (runLoop colors inactiveColors S sink n).1 = animState colors.length S n ∧
    (runLoop colors inactiveColors S sink n).2.1 =
      (runLoop colors inactiveColors S (fun _ => none) n).2.1 := by
  refine ⟨runLoop_fst _ _ _ _ _, ?_⟩
  induction n with
  | zero => rfl
  | succ n ih => simp [runLoop, ih, runLoop_fst]

/-! ## Claims about the derived timing values -/

/-- C7 as stated is false: the frame delay is a whole number of
nanoseconds, truncated, so at `fps = 3` it is `333333333` ns, not the
claimed `1/3` of a second (`10^9 / 3` ns). -/
theorem frameDelay_not_exact :
    ¬ ((frameDelayNanos 3 : ℚ) = 1 / 3 * 1000000000) := by
  have h : frameDelayNanos 3 = 333333333 := by
    rw [frameDelayNanos, ratTrunc_of_nonneg (by norm_num)]
    norm_num [Int.floor_eq_iff]
  rw [h]
  norm_num

/-- C7 (amended): `stepsPerTransition = ⌊secs * fps⌋`, a non-negative
integer, and the frame delay is `⌊10^9 / fps⌋` nanoseconds — `1/fps`
seconds truncated to a whole number of nanoseconds. -/
theorem derived_timing (secs fps : ℚ) (hs : 0 < secs) (hf : 0 < fps) :
    stepsPerTransition secs fps = ⌊secs * fps⌋ ∧
    0 ≤ stepsPerTransition secs fps ∧
    frameDelayNanos fps = ⌊(1000000000 : ℚ) / fps⌋ := by
  have hsf : (0 : ℚ) ≤ secs * fps := le_of_lt (mul_pos hs hf)
  have h9 : (0 : ℚ) ≤ 1 / fps * 1000000000 := by positivity
  refine ⟨ratTrunc_of_nonneg hsf, ?_, ?_⟩
  · rw [stepsPerTransition, ratTrunc_of_nonneg hsf]
    exact Int.floor_nonneg.mpr hsf
  · rw [frameDelayNanos, ratTrunc_of_nonneg h9,
      show (1 : ℚ) / fps * 1000000000 = 1000000000 / fps from by ring]

/-- Witness for the amended C7 at `secs = 1`, `fps = 3`. -/
theorem derived_timing_witness :
    stepsPerTransition 1 3 = ⌊(1 : ℚ) * 3⌋ ∧
    0 ≤ stepsPerTransition 1 3 ∧
    frameDelayNanos 3 = ⌊(1000000000 : ℚ) / 3⌋ :=
  derived_timing 1 3 (by norm_num) (by norm_num)

/-! ## Claims about color parsing -/

theorem parseColor_of_length_ne (s : List Char)
    (h : (stripHash s).length ≠ 8) :
    parseColor s = .error (.invalidFormat (stripHash s)) := by
  simp [parseColor, h]

theorem parseColor_of_scan_none (s : List Char)
    (h : (stripHash s).length = 8) (hsc : scanHex8 (stripHash s) = none) :
    parseColor s = .error (.invalidValue (stripHash s)) := by
  simp [parseColor, h, hsc]

theorem parseColor_of_scan_some (s : List Char)
    (h : (stripHash s).length = 8) (v : ℕ)
    (hsc : scanHex8 (stripHash s) = some v) :
    parseColor s = .ok (rgbaOfVal v) := by
  simp [parseColor, h, hsc]

theorem scanHex8_cons_false {d : Char} (rest : List Char)
    (h : isHexDig d = false) : scanHex8 (d :: rest) = none := by
  simp [scanHex8, List.takeWhile_cons, h]

theorem scanHex8_cons_true {d : Char} (rest : List Char)
    (h : isHexDig d = true) (hlen : rest.length ≤ 7) :
    scanHex8 (d :: rest) = some (hexListVal ((d :: rest).takeWhile isHexDig)) := by
  have hsub : (rest.takeWhile isHexDig).length ≤ 7 :=
    le_trans (List.takeWhile_sublist isHexDig).length_le hlen
  simp [scanHex8, List.takeWhile_cons, h, List.take_of_length_le, hsub,
    List.take_of_length_le (by simpa using Nat.succ_le_succ hsub :
      (d :: rest.takeWhile isHexDig).length ≤ 8)]

/-- C3 as stated is false: `"1234WXYZ"` has non-hexadecimal characters,
yet `parseColor` accepts it, because `fmt.Sscanf` with `%08X` consumes
only the maximal leading run of hexadecimal digits and ignores trailing
input. The scanned value is `0x1234`, giving color `(0, 0, 18, 52)`. -/
theorem parseColor_counterexample :
    (['1', '2', '3', '4', 'W', 'X', 'Y', 'Z'].all isHexDig = false) ∧
    parseColor ['1', '2', '3', '4', 'W', 'X', 'Y', 'Z'] = .ok ⟨0, 0, 18, 52⟩ ∧
    ∀ e : ColorErr, parseColor ['1', '2', '3', '4', 'W', 'X', 'Y', 'Z'] ≠ .error e := by
  refine ⟨by decide, rfl, ?_⟩
  intro e h
  rw [show parseColor ['1', '2', '3', '4', 'W', 'X', 'Y', 'Z'] = .ok ⟨0, 0, 18, 52⟩
    from rfl] at h
  exact Except.noConfusion h

/-- C3 (amended): after stripping an optional `#`, `parseColor` fails
with `InvalidFormat` exactly when the length is not 8; for a
(whitespace-free) 8-character remainder it fails with `InvalidValue`
exactly when the FIRST character is not a hexadecimal digit, and
otherwise succeeds with the value of the maximal leading run of
hexadecimal digits — in particular on a fully hexadecimal remainder it
returns the color whose channels are bits 31-24, 23-16, 15-8 and 7-0 of
the full 8-digit value. -/
theorem parseColor_characterization (s : List Char)
    (hws : ∀ ch ∈ s, ch.isWhitespace = false) :
    ((stripHash s).length ≠ 8 →
      parseColor s = .error (.invalidFormat (stripHash s))) ∧
    ((∃ c', parseColor s = .error (.invalidFormat c')) ↔
      (stripHash s).length ≠ 8) ∧
    (∀ d rest, stripHash s = d :: rest → rest.length = 7 →
      ((parseColor s = .error (.invalidValue (d :: rest))) ↔ isHexDig d = false) ∧
      (isHexDig d = true →
        parseColor s = .ok (rgbaOfVal (hexListVal ((d :: rest).takeWhile isHexDig))))) ∧
    ((stripHash s).length = 8 → (∀ ch ∈ stripHash s, isHexDig ch = true) →
      parseColor s = .ok (rgbaOfVal (hexListVal (stripHash s)))) := by
  refine ⟨parseColor_of_length_ne s, ⟨?_, ?_⟩, ?_, ?_⟩
  · rintro ⟨c', hc⟩ hl
    cases hsc : scanHex8 (stripHash s) with
    | none => rw [parseColor_of_scan_none s hl hsc] at hc; simp at hc
    | some v => rw [parseColor_of_scan_some s hl v hsc] at hc; simp at hc
  · intro h
    exact ⟨stripHash s, parseColor_of_length_ne s h⟩
  · intro d rest hd hrest
    have hlen8 : (stripHash s).length = 8 := by rw [hd]; simp [hrest]
    refine ⟨⟨?_, ?_⟩, ?_⟩
    · intro hc
      by_contra hT
      rw [Bool.not_eq_false] at hT
      have hsc : scanHex8 (stripHash s) =
          some (hexListVal ((d :: rest).takeWhile isHexDig)) := by
        rw [hd]; exact scanHex8_cons_true rest hT (by omega)
      rw [parseColor_of_scan_some s hlen8 _ hsc] at hc
      exact Except.noConfusion hc
    · intro hF
      have hsc : scanHex8 (stripHash s) = none := by
        rw [hd]; exact scanHex8_cons_false rest hF
      rw [parseColor_of_scan_none s hlen8 hsc, hd]
    · intro hT
      have hsc : scanHex8 (stripHash s) =
          some (hexListVal ((d :: rest).takeWhile isHexDig)) := by
        rw [hd]; exact scanHex8_cons_true rest hT (by omega)
      exact parseColor_of_scan_some s hlen8 _ hsc
  · intro hlen hall
    have ht : (stripHash s).takeWhile isHexDig = stripHash s :=
      List.takeWhile_eq_self_iff.mpr hall
    have hne : (stripHash s) ≠ [] := by
      intro h0
      rw [h0] at hlen
      simp at hlen
    have hsc : scanHex8 (stripHash s) = some (hexListVal (stripHash s)) := by
      simp [scanHex8, ht, List.take_of_length_le (le_of_eq hlen), hne]
    exact parseColor_of_scan_some s hlen _ hsc

/-- Witness for the amended C3: a 7-character input is rejected with
`InvalidFormat`. -/
theorem parseColor_characterization_witness :
    parseColor ['1', '2', '3', '4', '5', '6', '7'] =
      .error (.invalidFormat ['1', '2', '3', '4', '5', '6', '7']) :=
  (parseColor_characterization ['1', '2', '3', '4', '5', '6', '7']
    (by decide)).1 (by decide)

/-! ## The parse/encode round-trip -/

theorem hexDigitVal_lt_16 (c : Char) : hexDigitVal c < 16 := by
  unfold hexDigitVal
  split
  · next h => simp only [Bool.and_eq_true, decide_eq_true_eq] at h; omega
  · split
    · next h => simp only [Bool.and_eq_true, decide_eq_true_eq] at h; omega
    · split
      · next h => simp only [Bool.and_eq_true, decide_eq_true_eq] at h; omega
      · omega

theorem stripHash_cons_ne {d : Char} (l : List Char) (h : d ≠ '#') :
    stripHash (d :: l) = d :: l := by
  simp [stripHash, h]

theorem hexListVal_eight (d0 d1 d2 d3 d4 d5 d6 d7 : Char) :
    hexListVal [d0, d1, d2, d3, d4, d5, d6, d7] =
      (16 * hexDigitVal d0 + hexDigitVal d1) * 16777216 +
      (16 * hexDigitVal d2 + hexDigitVal d3) * 65536 +
      (16 * hexDigitVal d4 + hexDigitVal d5) * 256 +
      (16 * hexDigitVal d6 + hexDigitVal d7) := by
  simp [hexListVal, List.foldl]
  ring

theorem rgbaOfVal_bytes (v01 v23 v45 v67 : ℕ)
    (h01 : v01 < 256) (h23 : v23 < 256) (h45 : v45 < 256) (h67 : v67 < 256) :
    rgbaOfVal (v01 * 16777216 + v23 * 65536 + v45 * 256 + v67) =
      ⟨v01, v23, v45, v67⟩ := by
  simp only [rgbaOfVal, Nat.shiftRight_eq_div_pow]
  norm_num
  refine ⟨?_, ?_, ?_, ?_⟩ <;> omega

theorem byteHex_pair (x y : ℕ) (hx : x < 16) (hy : y < 16) :
    byteHex (16 * x + y) = [hexUpperChar x, hexUpperChar y] := by
  rw [byteHex, show (16 * x + y) / 16 = x from by omega,
    show (16 * x + y) % 16 = y from by omega]

/-- C4: for every valid 8-hex-digit color string (optional leading `#`,
case-insensitive, channel order RRGGBBAA), parsing succeeds, every
channel value is preserved exactly, and encoding the parsed color yields
the canonical `0xAARRGGBB` form: `0x` followed by the eight digits
re-ordered alpha-first, each canonicalized to its uppercase hexadecimal
digit, two zero-padded digits per channel. -/
theorem parse_encode_roundtrip (p : List Char) (d0 d1 d2 d3 d4 d5 d6 d7 : Char)
    (hp : p = [] ∨ p = ['#'])
    (hhex : ∀ d ∈ [d0, d1, d2, d3, d4, d5, d6, d7], isHexDig d = true) :
    ∃ c : RGBA,
      parseColor (p ++ [d0, d1, d2, d3, d4, d5, d6, d7]) = .ok c ∧
      c.r = 16 * hexDigitVal d0 + hexDigitVal d1 ∧
      c.g = 16 * hexDigitVal d2 + hexDigitVal d3 ∧
      c.b = 16 * hexDigitVal d4 + hexDigitVal d5 ∧
      c.a = 16 * hexDigitVal d6 + hexDigitVal d7 ∧
      colorToHex c = ['0', 'x',
        hexUpperChar (hexDigitVal d6), hexUpperChar (hexDigitVal d7),
        hexUpperChar (hexDigitVal d0), hexUpperChar (hexDigitVal d1),
        hexUpperChar (hexDigitVal d2), hexUpperChar (hexDigitVal d3),
        hexUpperChar (hexDigitVal d4), hexUpperChar (hexDigitVal d5)] := by
  have hne : d0 ≠ '#' := by
    intro h0
    have := hhex d0 (by simp)
    rw [h0] at this
    simp [isHexDig] at this
  have hstrip : stripHash (p ++ [d0, d1, d2, d3, d4, d5, d6, d7]) =
      [d0, d1, d2, d3, d4, d5, d6, d7] := by
    rcases hp with hp | hp <;> subst hp
    · exact stripHash_cons_ne _ hne
    · simp [stripHash]
  have hlen : (stripHash (p ++ [d0, d1, d2, d3, d4, d5, d6, d7])).length = 8 := by
    rw [hstrip]; rfl
  have hall : ∀ ch ∈ stripHash (p ++ [d0, d1, d2, d3, d4, d5, d6, d7]),
      isHexDig ch = true := by
    rw [hstrip]; exact hhex
  have ht : (stripHash (p ++ [d0, d1, d2, d3, d4, d5, d6, d7])).takeWhile isHexDig =
      stripHash (p ++ [d0, d1, d2, d3, d4, d5, d6, d7]) :=
    List.takeWhile_eq_self_iff.mpr hall
  have hsc : scanHex8 (stripHash (p ++ [d0, d1, d2, d3, d4, d5, d6, d7])) =
      some (hexListVal [d0, d1, d2, d3, d4, d5, d6, d7]) := by
    rw [scanHex8, ht, hstrip]
    simp [List.take_of_length_le]
  have hparse := parseColor_of_scan_some _ hlen _ hsc
  have hv0 : hexDigitVal d0 < 16 := hexDigitVal_lt_16 d0
  have hv1 : hexDigitVal d1 < 16 := hexDigitVal_lt_16 d1
  have hv2 : hexDigitVal d2 < 16 := hexDigitVal_lt_16 d2
  have hv3 : hexDigitVal d3 < 16 := hexDigitVal_lt_16 d3
  have hv4 : hexDigitVal d4 < 16 := hexDigitVal_lt_16 d4
  have hv5 : hexDigitVal d5 < 16 := hexDigitVal_lt_16 d5
  have hv6 : hexDigitVal d6 < 16 := hexDigitVal_lt_16 d6
  have hv7 : hexDigitVal d7 < 16 := hexDigitVal_lt_16 d7
  have hrgba : rgbaOfVal (hexListVal [d0, d1, d2, d3, d4, d5, d6, d7]) =
      ⟨16 * hexDigitVal d0 + hexDigitVal d1, 16 * hexDigitVal d2 + hexDigitVal d3,
       16 * hexDigitVal d4 + hexDigitVal d5, 16 * hexDigitVal d6 + hexDigitVal d7⟩ := by
    rw [hexListVal_eight]
    exact rgbaOfVal_bytes _ _ _ _ (by omega) (by omega) (by omega) (by omega)
  refine ⟨_, by rw [hparse, hrgba], rfl, rfl, rfl, rfl, ?_⟩
  rw [colorToHex]
  rw [byteHex_pair _ _ hv6 hv7, byteHex_pair _ _ hv0 hv1,
    byteHex_pair _ _ hv2 hv3, byteHex_pair _ _ hv4 hv5]
  rfl

/-- Witness for C4: parsing `#ff0000ff` (lowercase) and re-encoding
yields the canonical uppercase `0xFFFF0000`. -/
theorem parse_encode_roundtrip_witness :
    ∃ c : RGBA,
      parseColor (['#'] ++ ['f', 'f', '0', '0', '0', '0', 'f', 'f']) = .ok c ∧
      c.r = 16 * hexDigitVal 'f' + hexDigitVal 'f' ∧
      c.g = 16 * hexDigitVal '0' + hexDigitVal '0' ∧
      c.b = 16 * hexDigitVal '0' + hexDigitVal '0' ∧
      c.a = 16 * hexDigitVal 'f' + hexDigitVal 'f' ∧
      colorToHex c = ['0', 'x',
        hexUpperChar (hexDigitVal 'f'), hexUpperChar (hexDigitVal 'f'),
        hexUpperChar (hexDigitVal 'f'), hexUpperChar (hexDigitVal 'f'),
        hexUpperChar (hexDigitVal '0'), hexUpperChar (hexDigitVal '0'),
        hexUpperChar (hexDigitVal '0'), hexUpperChar (hexDigitVal '0')] :=
  parse_encode_roundtrip ['#'] 'f' 'f' '0' '0' '0' '0' 'f' 'f'
    (Or.inr rfl) (by decide)

/-! ## The animator's counters in closed form -/

theorem animState_closed (len S : ℕ) (hlen : 1 ≤ len) (n : ℕ) :
    animState len S n = ⟨n / (S + 1) % len, n % (S + 1)⟩ := by
  induction n with
  | zero => simp [animState]
  | succ n ih =>
    simp only [animState]
    rw [ih]
    simp only [nextState]
    have hrlt : n % (S + 1) < S + 1 := Nat.mod_lt _ (Nat.succ_pos S)
    have hnqr : (S + 1) * (n / (S + 1)) + n % (S + 1) = n := Nat.div_add_mod n (S + 1)
    by_cases hcase : n % (S + 1) < S
    · have h0 : (n % (S + 1) + 1) / (S + 1) = 0 := Nat.div_eq_of_lt (by omega)
      have h1 : (n % (S + 1) + 1) % (S + 1) = n % (S + 1) + 1 :=
        Nat.mod_eq_of_lt (by omega)
      have hdiv : (n + 1) / (S + 1) = n / (S + 1) := by
        conv_lhs => rw [← hnqr, Nat.add_assoc, Nat.mul_add_div (Nat.succ_pos S), h0]
        rw [Nat.add_zero]
      have hmod : (n + 1) % (S + 1) = n % (S + 1) + 1 := by
        conv_lhs => rw [← hnqr, Nat.add_assoc, Nat.mul_add_mod, h1]
      rw [if_pos hcase, hdiv, hmod]
    · have hrS : n % (S + 1) = S := by omega
      have hsplit : (S + 1) * (n / (S + 1)) + S + 1 = (S + 1) * (n / (S + 1) + 1) := by
        ring
      have hdiv : (n + 1) / (S + 1) = n / (S + 1) + 1 := by
        conv_lhs => rw [← hnqr, hrS]
        rw [hsplit, Nat.mul_div_cancel_left _ (Nat.succ_pos S)]
      have hmod : (n + 1) % (S + 1) = 0 := by
        conv_lhs => rw [← hnqr, hrS]
        rw [hsplit, Nat.mul_mod_right]
      rw [if_neg hcase, hdiv, hmod]
      have hql : n / (S + 1) % len < len := Nat.mod_lt _ (by omega)
      have hkey : (n / (S + 1) % len + 1) % len = (n / (S + 1) + 1) % len :=
        Nat.mod_add_mod _ _ _
      by_cases hwrap : n / (S + 1) % len + 1 < len
      · rw [if_pos hwrap,
          show n / (S + 1) % len + 1 = (n / (S + 1) + 1) % len from by
            rw [← hkey, Nat.mod_eq_of_lt hwrap]]
      · rw [if_neg hwrap,
          show (0 : ℕ) = (n / (S + 1) + 1) % len from by
            rw [← hkey, show n / (S + 1) % len + 1 = len from by omega,
              Nat.mod_self]]

/-- C1: with non-empty equal-length tracks and `stepsPerTransition = S ≥ 1`,
the loop emits frame `n` with `trackIndex = (n / (S+1)) % len` (cycling
`0, 1, ..., len-1` forever), `subStep = n % (S+1)` ranging over
`0 ..= S`, and `t = subStep / S`: the active frame color is
`interpolateColor(activeTrack[trackIndex], activeTrack[(trackIndex+1) % len], t)`
and likewise for the inactive track; in particular for `S = 2` the `t`
sequence is `0, 1/2, 1, 0, 1/2, 1, ...` cycling with period 3. -/
theorem animator_frames (colors inactiveColors : List RGBA) (S : ℕ)
    (hne : colors ≠ []) (hlen : inactiveColors.length = colors.length)
    (hS : 1 ≤ S) :
    (∀ n, emittedFrame colors inactiveColors S n =
      { active := interpolateColor
          (colors.getD (n / (S + 1) % colors.length) dRGBA)
          (colors.getD ((n / (S + 1) % colors.length + 1) % colors.length) dRGBA)
          ((n % (S + 1) : ℕ) / (S : ℚ)),
        inactive := interpolateColor
          (inactiveColors.getD (n / (S + 1) % colors.length) dRGBA)
          (inactiveColors.getD ((n / (S + 1) % colors.length + 1) % colors.length)
            dRGBA)
          ((n % (S + 1) : ℕ) / (S : ℚ)) }) ∧
    (S = 2 → ∀ n, ((animState colors.length S n).step : ℚ) / (S : ℚ) =
      [(0 : ℚ), 1 / 2, 1].getD (n % 3) 0) := by
  have hl1 : 1 ≤ colors.length := List.length_pos.mpr hne
  constructor
  · intro n
    rw [emittedFrame, animState_closed _ _ hl1]
    simp only [frameAt, hlen]
  · intro hS2 n
    subst hS2
    rw [animState_closed _ _ hl1]
    have h3 : n % (2 + 1) = 0 ∨ n % (2 + 1) = 1 ∨ n % (2 + 1) = 2 := by omega
    have h33 : n % (2 + 1) = n % 3 := rfl
    rcases h3 with h | h | h <;>
      simp only [h33 ▸ h, h] <;> norm_num

/-- Witness for C1: a 2-color track with `stepsPerTransition = 2`; frame 1
is the midpoint `t = 1/2` of the first transition. -/
theorem animator_frames_witness :
    emittedFrame [⟨255, 0, 0, 255⟩, ⟨0, 0, 255, 255⟩]
        [⟨0, 0, 255, 255⟩, ⟨255, 0, 0, 255⟩] 2 1 =
      { active := interpolateColor ⟨255, 0, 0, 255⟩ ⟨0, 0, 255, 255⟩
          ((1 : ℕ) / (2 : ℚ)),
        inactive := interpolateColor ⟨0, 0, 255, 255⟩ ⟨255, 0, 0, 255⟩
          ((1 : ℕ) / (2 : ℚ)) } := by
  have h := (animator_frames [⟨255, 0, 0, 255⟩, ⟨0, 0, 255, 255⟩]
    [⟨0, 0, 255, 255⟩, ⟨255, 0, 0, 255⟩] 2 (by decide) rfl (by norm_num)).1 1
  simpa using h

end BorderShimmer
